import Mathlib

/-!
Verification of the statscollector service (`src/main.go`).

The service records, per referer, view and click counters for URLs and serves
an aggregated report with a click-through-rate per URL.  The handlers `View`,
`Click` and `Stat` in `src/main.go` are embedded below over an explicit model
of the persistent counter store.  The store itself is the external `slowpoke`
library, whose code is not part of this repository; its operations
(`Counter`, `Get`, `Keys`) are modelled from the specification's Counter
Store contract: a durable map from `(namespace, key)` to a counter, where the
persisted value equals the number of successful increments ever issued for
the pair, `Get` distinguishes "absent" from a stored value, and `Keys` lists
the keys of a namespace in ascending lexicographic (byte-wise) order.

The store state is represented by the history of successful increment
events, a `List (String × String)` of `(namespace, key)` pairs; the value of
a counter is the number of its events in the history.  This makes the
spec's invariant ("the persisted value equals the number of successful
increment calls ever issued for that pair") definitional, and lets an
arbitrary interleaving of concurrent increments be modelled as an arbitrary
serialization (list) of atomic increment events.
-/

namespace StatsCollector

/-- Lexicographic (byte-wise) comparison of character lists: `lexLe as bs`
is true iff `as` is lexicographically at most `bs`. -/
def lexLe : List Char → List Char → Bool
  | [], _ => true
  | _ :: _, [] => false
  | a :: as, b :: bs => if a < b then true else if a = b then lexLe as bs else false

/-- Lexicographic order on strings, via their character data. -/
def strLe (a b : String) : Prop := lexLe a.data b.data = true

instance : DecidableRel strLe := fun a b => by unfold strLe; infer_instance

theorem lexLe_total : ∀ as bs : List Char, lexLe as bs = true ∨ lexLe bs as = true
  | [], _ => Or.inl rfl
  | _ :: _, [] => Or.inr rfl
  | a :: as, b :: bs => by
    rcases lt_trichotomy a b with h | h | h
    · left; simp [lexLe, h]
    · subst h
      rcases lexLe_total as bs with h' | h'
      · left; simp [lexLe, h']
      · right; simp [lexLe, h']
    · right; simp [lexLe, h]

theorem lexLe_trans :
    ∀ as bs cs : List Char, lexLe as bs = true → lexLe bs cs = true → lexLe as cs = true
  | [], _, _, _, _ => rfl
  | _ :: _, [], _, h₁, _ => by simp [lexLe] at h₁
  | _ :: _, _ :: _, [], _, h₂ => by simp [lexLe] at h₂
  | a :: as, b :: bs, c :: cs, h₁, h₂ => by
    simp only [lexLe] at h₁ h₂ ⊢
    by_cases hab : a < b
    · by_cases hbc : b < c
      · simp [lt_trans hab hbc]
      · by_cases hbc' : b = c
        · subst hbc'
          simp [hab]
        · simp [hbc, hbc'] at h₂
    · by_cases hab' : a = b
      · subst hab'
        rw [if_neg (lt_irrefl a), if_pos rfl] at h₁
        by_cases hac : a < c
        · simp [hac]
        · by_cases hac' : a = c
          · subst hac'
            rw [if_neg (lt_irrefl a), if_pos rfl] at h₂ ⊢
            exact lexLe_trans as bs cs h₁ h₂
          · simp [hac, hac'] at h₂
      · simp [hab, hab'] at h₁

instance : IsTotal String strLe := ⟨fun a b => lexLe_total a.data b.data⟩

instance : IsTrans String strLe := ⟨fun a b c => lexLe_trans a.data b.data c.data⟩

/-- Modelled from the spec: the state of the slowpoke counter store is the
history of successful increment events, each event a `(namespace, key)`
pair.  The code under `src/` only ever writes counters through
`sp.Counter`, so the history of increments determines the store. -/
abbrev Store := List (String × String)

/-- Modelled from the spec: the persisted value of counter `(ns, k)` equals
the number of successful increment calls ever issued for that pair. -/
def value (st : Store) (ns k : String) : Nat :=
  st.countP (fun e => decide (e = (ns, k)))

/-- Modelled from the spec: `slowpoke.Counter` atomically increases the
counter for `(ns, k)` by exactly 1; one successful call appends one event
to the history. -/
def Increment (st : Store) (ns k : String) : Store := st ++ [(ns, k)]

/-- Modelled from the spec: `slowpoke.Get` returns the stored counter value,
or an error when the pair was never incremented ("absent", treated as 0 by
callers).  `none` is the error/absent outcome. -/
def Get (st : Store) (ns k : String) : Option Nat :=
  if value st ns k = 0 then none else some (value st ns k)

/-- Modelled from the spec: `slowpoke.Keys(ns, nil, 0, 0, true)` returns all
keys with at least one recorded increment in namespace `ns`, each exactly
once, in ascending lexicographic (byte-wise) order. -/
def ListKeys (st : Store) (ns : String) : List String :=
  List.insertionSort strLe ((st.filter (fun e => e.1 = ns)).map Prod.snd).dedup

/-- A serialization of a set of increment operations: the events are applied
to the store one at a time, each atomically. -/
def applyTrace (st : Store) (tr : List (String × String)) : Store :=
  tr.foldl (fun s e => Increment s e.1 e.2) st

/-- Namespace string used by the `View` and `Stat` handlers:
`"counters/view" + referer` (src/main.go lines 91, 138, 146). -/
def viewNs (referer : String) : String := "counters/view" ++ referer

/-- Namespace string used by the `Click` and `Stat` handlers:
`"counters/click" + referer` (src/main.go lines 116, 149). -/
def clickNs (referer : String) : String := "counters/click" ++ referer

/-- HTTP status of a handler response: 200 (`ok`) or 422 (`unprocessable`,
`http.StatusUnprocessableEntity`). -/
inductive HStatus where
  | ok
  | unprocessable
deriving DecidableEq

/-- The bound request body of `View`/`Click` (struct `Hit`, src/main.go
lines 20-23).  `urls = none` models a nil `Urls` slice (field absent or
null), `urls = some us` a non-nil slice, possibly empty: Go distinguishes
the two, and the handlers test `h.Urls != nil`. -/
structure Hit where
  referer : String
  urls : Option (List String)

/-- The `View` handler (src/main.go lines 79-99), after a successful bind:
if `h.Urls` is non-nil it increments the view counter of each listed URL in
order (`sp.Counter("counters/view"+h.Referer, []byte(u))`; the returned
error is discarded, and the `sp.CloseAll()` flush after each call has no
effect on the stored values) and answers 200 with the request body;
otherwise it answers 422 ("empty urls"). -/
def View (st : Store) (h : Hit) : Store × HStatus :=
  match h.urls with
  | some us => (us.foldl (fun s u => Increment s (viewNs h.referer) u) st, HStatus.ok)
  | none => (st, HStatus.unprocessable)

/-- The `Click` handler (src/main.go lines 104-124): identical to `View`
but incrementing `"counters/click" + referer`. -/
def Click (st : Store) (h : Hit) : Store × HStatus :=
  match h.urls with
  | some us => (us.foldl (fun s u => Increment s (clickNs h.referer) u) st, HStatus.ok)
  | none => (st, HStatus.unprocessable)

/-- The `View` handler in the presence of storage write failures: a call
for which `fail ns u = true` models `sp.Counter` returning an error, in
which case the increment did not apply.  The source discards the returned
error and never branches on it, so the loop continues over the remaining
URLs and the response is 200 regardless of failures. -/
def ViewF (fail : String → String → Bool) (st : Store) (h : Hit) : Store × HStatus :=
  match h.urls with
  | some us =>
    (us.foldl
      (fun s u => if fail (viewNs h.referer) u then s else Increment s (viewNs h.referer) u)
      st, HStatus.ok)
  | none => (st, HStatus.unprocessable)

/-- The `Click` handler in the presence of storage write failures; see
`ViewF`. -/
def ClickF (fail : String → String → Bool) (st : Store) (h : Hit) : Store × HStatus :=
  match h.urls with
  | some us =>
    (us.foldl
      (fun s u => if fail (clickNs h.referer) u then s else Increment s (clickNs h.referer) u)
      st, HStatus.ok)
  | none => (st, HStatus.unprocessable)

/-- One element of the `Stat` response (struct `StatResp`, src/main.go
lines 25-30).  The `float64` CTR field is modelled as a rational. -/
structure StatResp where
  url : String
  view : Nat
  click : Nat
  ctr : ℚ
deriving DecidableEq

/-- One iteration of the key loop of the `Stat` handler (src/main.go lines
144-165), over an abstract read operation `g ns key` (`none` = fetch
failed/absent): fetch the view count; on error the entry is skipped
(`none`); otherwise fetch the click count, an error leaving it 0, and build
the entry with `CTR = view/click` if `click > 0`, else `CTR = 0`. -/
def statEntry (g : String → String → Option Nat) (referer key : String) : Option StatResp :=
  match g (viewNs referer) key with
  | none => none
  | some v =>
    let c := (g (clickNs referer) key).getD 0
    some ⟨key, v, c, if 0 < c then (v : ℚ) / (c : ℚ) else 0⟩

/-- The key loop of the `Stat` handler over an abstract read operation and
an explicit key list: entries are appended in key order, skipped entries
dropped. -/
def ReportG (g : String → String → Option Nat) (referer : String) (keys : List String) :
    List StatResp :=
  keys.filterMap (statEntry g referer)

/-- The `Stat` handler (src/main.go lines 130-168) on the GET path, given
that the key enumeration succeeded: enumerate the keys of the view
namespace of `referer` and run the key loop against the store. -/
def Report (st : Store) (referer : String) : List StatResp :=
  ReportG (Get st) referer (ListKeys st (viewNs referer))

/-- The store produced by the end-to-end scenario: from a fresh store,
register `{referer: "hotpop", urls: ["url1","url2"]}` as a view twice and
as a click once for "url1". -/
def demoStore : Store :=
  (Click
    ((View ((View ([] : Store) ⟨"hotpop", some ["url1", "url2"]⟩).1)
      ⟨"hotpop", some ["url1", "url2"]⟩).1)
    ⟨"hotpop", some ["url1"]⟩).1

theorem value_append (st tr : Store) (ns k : String) :
    value (st ++ tr) ns k = value st ns k + value tr ns k :=
  List.countP_append _ _ _

theorem value_nil (ns k : String) : value ([] : Store) ns k = 0 := rfl

theorem value_Increment_self (st : Store) (ns k : String) :
    value (Increment st ns k) ns k = value st ns k + 1 := by
  unfold Increment
  rw [value_append]
  simp [value]

theorem value_Increment_ne (st : Store) (ns k ns' k' : String)
    (h : ¬(ns' = ns ∧ k' = k)) :
    value (Increment st ns k) ns' k' = value st ns' k' := by
  unfold Increment
  rw [value_append]
  have hne : ((ns, k) : String × String) ≠ (ns', k') := by
    simp only [ne_eq, Prod.mk.injEq, not_and]
    intro h1 h2
    exact h ⟨h1.symm, h2.symm⟩
  simp [value, hne]

theorem Get_pos (st : Store) (ns k : String) (h : 0 < value st ns k) :
    Get st ns k = some (value st ns k) := by
  unfold Get
  rw [if_neg (by omega)]

theorem Get_getD (st : Store) (ns k : String) : (Get st ns k).getD 0 = value st ns k := by
  unfold Get
  by_cases h : value st ns k = 0 <;> simp [h]

theorem mem_ListKeys (st : Store) (ns k : String) :
    k ∈ ListKeys st ns ↔ 0 < value st ns k := by
  unfold ListKeys value
  rw [List.mem_insertionSort, List.mem_dedup]
  simp only [List.mem_map, List.mem_filter, List.countP_pos_iff, decide_eq_true_eq]
  constructor
  · rintro ⟨a, ⟨ha, h1⟩, h2⟩
    exact ⟨a, ha, by rw [Prod.ext_iff]; exact ⟨h1, h2⟩⟩
  · rintro ⟨a, ha, rfl⟩
    exact ⟨(ns, k), ⟨ha, rfl⟩, rfl⟩

theorem nodup_ListKeys (st : Store) (ns : String) : (ListKeys st ns).Nodup := by
  unfold ListKeys
  exact ((List.perm_insertionSort strLe _).nodup_iff).mpr (List.nodup_dedup _)

theorem sorted_ListKeys (st : Store) (ns : String) : (ListKeys st ns).Sorted strLe :=
  List.sorted_insertionSort strLe _

theorem ListKeys_eq_nil (st : Store) (ns : String) (h : ∀ k, value st ns k = 0) :
    ListKeys st ns = [] := by
  have hf : st.filter (fun e => decide (e.1 = ns)) = [] := by
    rw [List.filter_eq_nil_iff]
    intro a ha hp
    simp only [decide_eq_true_eq] at hp
    have hpos : 0 < value st ns a.2 := by
      unfold value
      rw [List.countP_pos_iff]
      exact ⟨a, ha, by simp [Prod.ext_iff, hp]⟩
    rw [h a.2] at hpos
    exact absurd hpos (by omega)
  unfold ListKeys
  rw [hf]
  rfl

theorem statEntry_ctr (g : String → String → Option Nat) (r k : String) (e : StatResp)
    (h : statEntry g r k = some e) :
    e.ctr = if 0 < e.click then (e.view : ℚ) / (e.click : ℚ) else 0 := by
  unfold statEntry at h
  cases hget : g (viewNs r) k with
  | none => rw [hget] at h; cases h
  | some v => rw [hget] at h; cases h; rfl

theorem statEntry_get (st : Store) (r k : String) (h : 0 < value st (viewNs r) k) :
    statEntry (Get st) r k =
      some ⟨k, value st (viewNs r) k, value st (clickNs r) k,
        if 0 < value st (clickNs r) k then
          ((value st (viewNs r) k : Nat) : ℚ) / ((value st (clickNs r) k : Nat) : ℚ)
        else 0⟩ := by
  unfold statEntry
  rw [Get_pos st _ k h, Get_getD]

theorem ReportG_map_url (st : Store) (r : String) :
    ∀ keys : List String, (∀ k ∈ keys, 0 < value st (viewNs r) k) →
      (ReportG (Get st) r keys).map StatResp.url = keys := by
  intro keys
  induction keys with
  | nil => intro _; rfl
  | cons a tl ih =>
    intro h
    unfold ReportG
    rw [List.filterMap_cons, statEntry_get st r a (h a (by simp))]
    simpa [ReportG] using ih (fun k hk => h k (List.mem_cons_of_mem a hk))

theorem Report_map_url (st : Store) (r : String) :
    (Report st r).map StatResp.url = ListKeys st (viewNs r) :=
  ReportG_map_url st r _ (fun k hk => (mem_ListKeys st _ k).mp hk)

theorem applyTrace_eq_append : ∀ (tr : List (String × String)) (st : Store),
    applyTrace st tr = st ++ tr
  | [], st => by simp [applyTrace]
  | e :: tl, st => by
    show applyTrace (Increment st e.1 e.2) tl = st ++ e :: tl
    rw [applyTrace_eq_append tl (Increment st e.1 e.2)]
    simp [Increment]

theorem fold_value (ns u : String) : ∀ (us : List String) (st : Store),
    value (us.foldl (fun s x => Increment s ns x) st) ns u = value st ns u + us.count u := by
  intro us
  induction us with
  | nil => intro st; simp
  | cons a tl ih =>
    intro st
    rw [List.foldl_cons, ih, List.count_cons]
    by_cases hau : a = u
    · subst hau
      rw [value_Increment_self]
      simp only [beq_self_eq_true, if_true]
      omega
    · rw [value_Increment_ne st ns a ns u (by tauto)]
      simp only [beq_iff_eq, hau, if_false]
      omega

theorem foldF_value (fail : String → String → Bool) (ns u : String)
    (hu : fail ns u = false) : ∀ (us : List String) (st : Store),
    value (us.foldl (fun s x => if fail ns x then s else Increment s ns x) st) ns u
      = value st ns u + us.count u := by
  intro us
  induction us with
  | nil => intro st; simp
  | cons a tl ih =>
    intro st
    rw [List.foldl_cons, ih, List.count_cons]
    by_cases hau : a = u
    · subst hau
      rw [hu]
      simp only [Bool.false_eq_true, if_false, beq_self_eq_true, if_true]
      rw [value_Increment_self]
      omega
    · by_cases hfa : fail ns a
      · rw [if_pos hfa]
        simp only [beq_iff_eq, hau, if_false]
        omega
      · rw [if_neg hfa]
        simp only [beq_iff_eq, hau, if_false]
        rw [value_Increment_ne st ns a ns u (by tauto)]
        omega

theorem viewNs_injective (r r' : String) (h : viewNs r = viewNs r') : r = r' := by
  have h2 := congrArg String.data h
  simp only [viewNs, String.data_append] at h2
  exact String.ext (List.append_cancel_left h2)

theorem clickNs_injective (r r' : String) (h : clickNs r = clickNs r') : r = r' := by
  have h2 := congrArg String.data h
  simp only [clickNs, String.data_append] at h2
  exact String.ext (List.append_cancel_left h2)

/-- The store and entry used to witness the CTR policy at views = 3,
clicks = 2: three view increments and two click increments on one URL. -/
def ctrDemoStore : Store :=
  List.replicate 3 (viewNs "r", "u") ++ List.replicate 2 (clickNs "r", "u")

/-- The report entry produced for `ctrDemoStore`. -/
def ctrDemoEntry : StatResp := ⟨"u", 3, 2, ((3 : Nat) : ℚ) / ((2 : Nat) : ℚ)⟩

theorem ctrDemo_mem : ctrDemoEntry ∈ Report ctrDemoStore "r" := by
  have h : Report ctrDemoStore "r" = [ctrDemoEntry] := rfl
  rw [h]
  exact List.mem_singleton.mpr rfl

theorem viewNs_ne_clickNs (r r' : String) : viewNs r ≠ clickNs r' := by
  intro h
  have h2 := congrArg String.data h
  simp only [viewNs, clickNs, String.data_append] at h2
  have h9 := congrArg (fun l => l[9]?) h2
  simp only at h9
  rw [List.getElem?_append_left (by decide), List.getElem?_append_left (by decide)] at h9
  exact absurd h9 (by decide)

/-- Claim C1: after registering `{referer: "hotpop", urls: ["url1","url2"]}`
as a view twice and as a click once for "url1" against a fresh store,
`Report "hotpop"` returns exactly the two entries
`{url1, views: 2, clicks: 1, ctr: 2.0}` and `{url2, views: 2, clicks: 0,
ctr: 0}`, ordered lexicographically by URL. -/
theorem end_to_end_report :
    Report demoStore "hotpop" = [⟨"url1", 2, 1, 2⟩, ⟨"url2", 2, 0, 0⟩] := by
  have h : Report demoStore "hotpop" =
      [⟨"url1", 2, 1, ((2 : Nat) : ℚ) / ((1 : Nat) : ℚ)⟩, ⟨"url2", 2, 0, 0⟩] := rfl
  rw [h]
  norm_num

/-- Claim C2: every entry emitted by `Report` has `ctr = views / clicks`
(views-per-click) when `clicks > 0`, and `ctr = 0` when `clicks = 0`
(which is also what an absent click counter yields); a zero denominator
never produces a division error, only `ctr = 0`. -/
theorem ctr_policy (st : Store) (r : String) (e : StatResp) (he : e ∈ Report st r) :
    (0 < e.click → e.ctr = (e.view : ℚ) / (e.click : ℚ)) ∧ (e.click = 0 → e.ctr = 0) := by
  obtain ⟨k, _, hsome⟩ := List.mem_filterMap.mp (by simpa [Report, ReportG] using he)
  have hctr := statEntry_ctr (Get st) r k e hsome
  constructor
  · intro hc
    rw [hctr, if_pos hc]
  · intro hc
    rw [hctr, if_neg (by omega)]

/-- Witness for C2: in a store with views = 3 and clicks = 2 on one URL, the
reported entry exists and its CTR is 1.5. -/
theorem ctr_policy_witness :
    ctrDemoEntry ∈ Report ctrDemoStore "r" ∧ ctrDemoEntry.ctr = 1.5 := by
  refine ⟨ctrDemo_mem, ?_⟩
  have h := (ctr_policy ctrDemoStore "r" ctrDemoEntry ctrDemo_mem).1 (by decide)
  rw [h]
  show ((3 : Nat) : ℚ) / ((2 : Nat) : ℚ) = 1.5
  norm_num

/-- Claim C3: the key universe of `Report` is exactly the keys of the
referer's view namespace: a URL appears in the report iff it has at least
one recorded view increment, so a URL with clicks but zero views is
omitted. -/
theorem report_key_universe (st : Store) (r k : String) :
    k ∈ (Report st r).map StatResp.url ↔ 0 < value st (viewNs r) k := by
  rw [Report_map_url]
  exact mem_ListKeys st (viewNs r) k

/-- Claim C4: `ListKeys` returns exactly the keys with at least one recorded
increment in the namespace, each exactly once, sorted lexicographically; a
never-written namespace yields `[]` (not an error); and `Report` emits its
entries in this same enumeration order (its URL column is exactly the
enumeration). -/
theorem listKeys_spec (st : Store) (ns : String) :
    (∀ k, k ∈ ListKeys st ns ↔ 0 < value st ns k) ∧
    (ListKeys st ns).Nodup ∧
    (ListKeys st ns).Sorted strLe ∧
    ((∀ k, value st ns k = 0) → ListKeys st ns = []) ∧
    (∀ r, (Report st r).map StatResp.url = ListKeys st (viewNs r)) :=
  ⟨fun k => mem_ListKeys st ns k, nodup_ListKeys st ns, sorted_ListKeys st ns,
    ListKeys_eq_nil st ns, fun r => Report_map_url st r⟩

/-- Witness for C4: a never-written namespace lists no keys, and a written
namespace lists its distinct keys once each, sorted. -/
theorem listKeys_spec_witness :
    ListKeys ([] : Store) "viewnone" = [] ∧
    ListKeys [(("a" : String), ("k2" : String)), ("a", "k1"), ("a", "k2")] "a"
      = ["k1", "k2"] := by
  refine ⟨(listKeys_spec ([] : Store) "viewnone").2.2.2.1 (fun _ => rfl), ?_⟩
  decide

/-- Claim C5: a registration request with referer `r` and URL list `us`
performs exactly one increment, adding exactly 1, on the counter
`(metric + r, u)` for each occurrence of each `u` in `us` (view metric for
the view endpoint, click metric for the click endpoint); and a write
failure on one URL's increment does not prevent the increments for the
remaining URLs (any failure oracle not hitting `u` leaves `u`'s increments
intact). -/
theorem registration_increments (st : Store) (r : String) (us : List String) (u : String) :
    value (View st ⟨r, some us⟩).1 (viewNs r) u = value st (viewNs r) u + us.count u ∧
    value (Click st ⟨r, some us⟩).1 (clickNs r) u = value st (clickNs r) u + us.count u ∧
    (∀ fail : String → String → Bool, fail (viewNs r) u = false →
      value (ViewF fail st ⟨r, some us⟩).1 (viewNs r) u
        = value st (viewNs r) u + us.count u) := by
  refine ⟨?_, ?_, ?_⟩
  · exact fold_value (viewNs r) u us st
  · exact fold_value (clickNs r) u us st
  · intro fail hf
    exact foldF_value fail (viewNs r) u hf us st

/-- Witness for C5: a failing increment on "bad" leaves both occurrences of
"u" counted. -/
theorem registration_increments_witness :
    value (ViewF (fun _ x => decide (x = "bad")) []
      ⟨"r", some ["u", "bad", "u"]⟩).1 (viewNs "r") "u" = 2 := by
  have h := (registration_increments [] "r" ["u", "bad", "u"] "u").2.2
    (fun _ x => decide (x = "bad")) (by decide)
  rw [h]
  decide

/-- Counterexample to C6: a registration in which every increment fails is
still acknowledged with 200, with the same status as the all-success run,
even though the increment did not apply (the counter is still 0): the
handlers discard the error returned by the store. -/
theorem write_error_acknowledged_ok :
    (ViewF (fun _ _ => true) [] ⟨"r", some ["u"]⟩).2 = HStatus.ok ∧
    value (ViewF (fun _ _ => true) [] ⟨"r", some ["u"]⟩).1 (viewNs "r") "u" = 0 ∧
    (ViewF (fun _ _ => true) [] ⟨"r", some ["u"]⟩).2 = (View [] ⟨"r", some ["u"]⟩).2 :=
  ⟨rfl, rfl, rfl⟩

/-- Amended C6: the store reports a write failure to the handler, but the
handler discards it: the response is 200 regardless of per-URL failures
(a failed registration is acknowledged exactly like a successful one), and
a failure on one URL does not abort the increments of the remaining
URLs. -/
theorem write_errors_discarded (fail : String → String → Bool) (st : Store) (r : String)
    (us : List String) (u : String) :
    (ViewF fail st ⟨r, some us⟩).2 = HStatus.ok ∧
    (ClickF fail st ⟨r, some us⟩).2 = HStatus.ok ∧
    (fail (viewNs r) u = false →
      value (ViewF fail st ⟨r, some us⟩).1 (viewNs r) u
        = value st (viewNs r) u + us.count u) ∧
    (fail (clickNs r) u = false →
      value (ClickF fail st ⟨r, some us⟩).1 (clickNs r) u
        = value st (clickNs r) u + us.count u) := by
  refine ⟨rfl, rfl, fun hf => ?_, fun hf => ?_⟩
  · exact foldF_value fail (viewNs r) u hf us st
  · exact foldF_value fail (clickNs r) u hf us st

/-- Witness for amended C6: a fully failing click registration still answers
200; a failure on "a" does not lose the increment of "b". -/
theorem write_errors_discarded_witness :
    (ClickF (fun _ _ => true) [] ⟨"rr", some ["a"]⟩).2 = HStatus.ok ∧
    value (ClickF (fun _ x => decide (x = "a")) []
      ⟨"rr", some ["a", "b"]⟩).1 (clickNs "rr") "b" = 1 := by
  refine ⟨(write_errors_discarded (fun _ _ => true) [] "rr" ["a"] "a").2.1, ?_⟩
  have h := (write_errors_discarded (fun _ x => decide (x = "a")) [] "rr" ["a", "b"] "b").2.2.2
    (by decide)
  rw [h]
  decide

/-- Claim C7: during the `Stat` key loop, a failed view fetch makes the
entry be skipped while the rest of the report is still produced, and a
failed or absent click fetch yields an entry with clicks = 0 (and hence
ctr = 0). -/
theorem report_read_error_tolerance (g : String → String → Option Nat) (r k : String)
    (v : Nat) (ks₁ ks₂ : List String) :
    (g (viewNs r) k = none →
      ReportG g r (ks₁ ++ k :: ks₂) = ReportG g r (ks₁ ++ ks₂)) ∧
    (g (viewNs r) k = some v → g (clickNs r) k = none →
      statEntry g r k = some ⟨k, v, 0, 0⟩) := by
  constructor
  · intro hnone
    unfold ReportG
    rw [List.filterMap_append, List.filterMap_append, List.filterMap_cons]
    have hk : statEntry g r k = none := by
      unfold statEntry
      rw [hnone]
    rw [hk]
  · intro hv hcl
    unfold statEntry
    rw [hv, hcl]
    rfl

/-- Witness for C7: with all reads failing the report of a one-key list is
empty; with a view value of 1 and a failing click read the entry has
clicks = 0 and ctr = 0. -/
theorem report_read_error_tolerance_witness :
    ReportG (fun _ _ => none) "r" ["k"] = [] ∧
    statEntry (fun ns _ => if ns = viewNs "r" then some 1 else none) "r" "k"
      = some ⟨"k", 1, 0, 0⟩ := by
  constructor
  · have h := (report_read_error_tolerance (fun _ _ => none) "r" "k" 0 [] []).1 rfl
    simpa [ReportG] using h
  · exact (report_read_error_tolerance
      (fun ns _ => if ns = viewNs "r" then some 1 else none) "r" "k" 1 [] []).2
      (if_pos rfl) (if_neg (by decide))

/-- Counterexample to C8: a registration whose URL list is present but
empty is NOT rejected: both handlers answer 200 (and increment nothing),
because the source only tests `h.Urls != nil` and an empty non-nil slice
passes that test. -/
theorem empty_url_list_accepted :
    View [] ⟨"r", some []⟩ = ([], HStatus.ok) ∧
    Click [] ⟨"r", some []⟩ = ([], HStatus.ok) :=
  ⟨rfl, rfl⟩

/-- Amended C8: a registration whose URL list is nil (absent) is rejected
with 422 and no counter is incremented; any non-nil URL list — including
the empty list — is acknowledged with 200, an empty list performing no
increments. -/
theorem url_list_validation (st : Store) (r : String) :
    View st ⟨r, none⟩ = (st, HStatus.unprocessable) ∧
    Click st ⟨r, none⟩ = (st, HStatus.unprocessable) ∧
    (∀ us, (View st ⟨r, some us⟩).2 = HStatus.ok ∧ (Click st ⟨r, some us⟩).2 = HStatus.ok) ∧
    (View st ⟨r, some []⟩).1 = st ∧ (Click st ⟨r, some []⟩).1 = st :=
  ⟨rfl, rfl, fun _ => ⟨rfl, rfl⟩, rfl, rfl⟩

/-- Claim C9: an increment of `(ns, k)` leaves every other `(namespace,
key)` pair unchanged; in particular incrementing a URL's view or click
counter under referer `r` leaves the counters of the same URL under any
other referer `r'`, and the counters of the other metric under any
referer, exactly as they were. -/
theorem increment_isolation (st : Store) (ns k ns' k' r r' u u' : String) :
    (¬(ns' = ns ∧ k' = k) → value (Increment st ns k) ns' k' = value st ns' k') ∧
    (r ≠ r' →
      value (Increment st (viewNs r) u) (viewNs r') u' = value st (viewNs r') u' ∧
      value (Increment st (clickNs r) u) (clickNs r') u' = value st (clickNs r') u') ∧
    value (Increment st (viewNs r) u) (clickNs r') u' = value st (clickNs r') u' ∧
    value (Increment st (clickNs r) u) (viewNs r') u' = value st (viewNs r') u' := by
  refine ⟨fun h => value_Increment_ne st ns k ns' k' h, fun hr => ⟨?_, ?_⟩, ?_, ?_⟩
  · exact value_Increment_ne _ _ _ _ _ (fun ⟨h1, _⟩ => hr ((viewNs_injective r' r h1).symm))
  · exact value_Increment_ne _ _ _ _ _ (fun ⟨h1, _⟩ => hr ((clickNs_injective r' r h1).symm))
  · exact value_Increment_ne _ _ _ _ _ (fun ⟨h1, _⟩ => viewNs_ne_clickNs r r' h1.symm)
  · exact value_Increment_ne _ _ _ _ _ (fun ⟨h1, _⟩ => viewNs_ne_clickNs r' r h1)

/-- Witness for C9: a view increment under referer "A" changes neither the
view counter of the same URL under referer "B" nor the click counter under
"A". -/
theorem increment_isolation_witness :
    value (Increment [] (viewNs "A") "u") (viewNs "B") "u" = 0 ∧
    value (Increment [] (viewNs "A") "u") (clickNs "A") "u" = 0 := by
  constructor
  · exact (((increment_isolation [] "" "" "" "" "A" "B" "u" "u").2.1 (by decide)).1).trans rfl
  · exact ((increment_isolation [] "" "" "" "" "A" "A" "u" "u").2.2.1).trans rfl

/-- Claim C10: for every fresh `(ns, k)` pair, any serialization of N
atomic increments of that pair (arbitrarily interleaved with increments of
other pairs) leaves the counter at exactly N, and a subsequent `Get`
returns exactly N: no lost updates under any interleaving. -/
theorem concurrent_increments_exact (st : Store) (tr : List (String × String))
    (ns k : String) (N : Nat) (h0 : value st ns k = 0) (hN : value tr ns k = N) :
    value (applyTrace st tr) ns k = N ∧
    (0 < N → Get (applyTrace st tr) ns k = some N) := by
  have hv : value (applyTrace st tr) ns k = N := by
    rw [applyTrace_eq_append, value_append, h0, hN, Nat.zero_add]
  refine ⟨hv, fun hpos => ?_⟩
  unfold Get
  rw [hv, if_neg (by omega)]

/-- Witness for C10: two increments of ("n","k") interleaved with an
increment of another pair yield a counter of exactly 2. -/
theorem concurrent_increments_exact_witness :
    value (applyTrace [] [(("n" : String), ("k" : String)), ("m", "x"), ("n", "k")])
      "n" "k" = 2 ∧
    Get (applyTrace [] [(("n" : String), ("k" : String)), ("m", "x"), ("n", "k")])
      "n" "k" = some 2 := by
  have h := concurrent_increments_exact []
    [(("n" : String), ("k" : String)), ("m", "x"), ("n", "k")] "n" "k" 2 rfl (by decide)
  exact ⟨h.1, h.2 (by decide)⟩

end StatsCollector
